import Mathlib

/-!
# MMM-MicrosoftToDo: the account client and the fetch coordinator

A shallow embedding of `src/MicrosoftToDoClient.js` and `src/node_helper.js`.

* Strings are Lean strings (sequences of Unicode scalar values); a JavaScript
  string holding a lone surrogate has no counterpart here.
* Instants are integers (milliseconds since the epoch, as `Date.now()` gives them),
  and so is `expires_in`.
* `fetch` is modelled by the responses an environment supplies to one call of
  `getTodos`; every request the code sends is recorded in a trace. Response bodies
  have the shape the upstream interface documents; a property the code tests
  against `undefined` is an `Option`, and `none` is the absent property.
* Calls on one client run one after the other; ticks that overlap are not modelled.
* The date-fns functions `add`, `formatISO9075` and `parseISO` are library code and
  are taken as parameters; `encodeURIComponent`, `decodeURIComponent` and
  `replaceAll` follow ECMAScript.
-/

/-! ## JavaScript string primitives -/

/-- The single-quote character (U+0027). -/
def apostrophe : Char := Char.ofNat 39

/-- The upper-case hexadecimal digit of a value below 16. -/
def hexDigit (n : Nat) : Char :=
  if n < 10 then Char.ofNat (48 + n) else Char.ofNat (55 + n)

/-- The value of a hexadecimal digit, in either case. -/
def hexValue (c : Char) : Option Nat :=
  if 48 ≤ c.toNat ∧ c.toNat ≤ 57 then some (c.toNat - 48)
  else if 65 ≤ c.toNat ∧ c.toNat ≤ 70 then some (c.toNat - 55)
  else if 97 ≤ c.toNat ∧ c.toNat ≤ 102 then some (c.toNat - 87)
  else none

/-- The UTF-8 octets of a code point. -/
def utf8Bytes (c : Char) : List Nat :=
  let v := c.toNat
  if v < 0x80 then [v]
  else if v < 0x800 then [0xC0 + v / 64, 0x80 + v % 64]
  else if v < 0x10000 then [0xE0 + v / 4096, 0x80 + v / 64 % 64, 0x80 + v % 64]
  else [0xF0 + v / 262144, 0x80 + v / 4096 % 64, 0x80 + v / 64 % 64, 0x80 + v % 64]

/-- One octet written as a percent escape. -/
def percentByte (b : Nat) : List Char := ['%', hexDigit (b / 16), hexDigit (b % 16)]

/-- The characters `encodeURIComponent` leaves alone: ASCII letters, digits and
the marks `- _ . ! ~ * ' ( )` (ECMAScript, uriUnescaped). -/
def uriUnescaped (c : Char) : Bool := c.isAlphanum || c ∈ "-_.!~*'()".toList

/-- What `encodeURIComponent` writes for one code point. -/
def encodeChar (c : Char) : List Char :=
  if uriUnescaped c then [c] else (utf8Bytes c).flatMap percentByte

/-- The built-in `encodeURIComponent` on a well-formed string. -/
def encodeURIComponent (s : String) : String := String.mk (s.data.flatMap encodeChar)

/-- The built-in `String.prototype.replaceAll` for a one-character pattern. -/
def replaceAll (s : String) (p : Char) (r : String) : String :=
  String.mk (s.data.flatMap fun c => if c = p then r.data else [c])

/-- The units `decodeURIComponent` reads: a literal character or an escaped octet. -/
inductive UriToken where
  | lit (c : Char)
  | octet (b : Nat)
  deriving DecidableEq, Repr

/-- First pass of `decodeURIComponent`: every `%` must be followed by two
hexadecimal digits, which give one octet. -/
def percentTokens : List Char → Option (List UriToken)
  | [] => some []
  | c :: rest =>
    if c = '%' then
      match rest with
      | h :: l :: rest2 =>
        match hexValue h, hexValue l, percentTokens rest2 with
        | some a, some b, some ts => some (UriToken.octet (16 * a + b) :: ts)
        | _, _, _ => none
      | _ => none
    else
      match percentTokens rest with
      | some ts => some (UriToken.lit c :: ts)
      | none => none

/-- A UTF-8 continuation octet, `10xxxxxx`. -/
def isContinuation (b : Nat) : Bool := 0x80 ≤ b && b ≤ 0xBF

/-- Second pass of `decodeURIComponent`, one code point: a literal character, or
escaped octets that form valid UTF-8 (no overlong form, no surrogate, nothing
above U+10FFFF). Gives the code point and the units that follow it. -/
def decodeOne : List UriToken → Option (Char × List UriToken)
  | [] => none
  | UriToken.lit c :: rest => some (c, rest)
  | UriToken.octet b0 :: rest =>
    if b0 < 0x80 then some (Char.ofNat b0, rest)
    else if 0xC0 ≤ b0 ∧ b0 < 0xE0 then
      match rest with
      | UriToken.octet b1 :: rest1 =>
        if isContinuation b1 ∧ 0x80 ≤ (b0 - 0xC0) * 64 + (b1 - 0x80) then
          some (Char.ofNat ((b0 - 0xC0) * 64 + (b1 - 0x80)), rest1)
        else none
      | _ => none
    else if 0xE0 ≤ b0 ∧ b0 < 0xF0 then
      match rest with
      | UriToken.octet b1 :: UriToken.octet b2 :: rest2 =>
        if isContinuation b1 ∧ isContinuation b2
            ∧ 0x800 ≤ (b0 - 0xE0) * 4096 + (b1 - 0x80) * 64 + (b2 - 0x80)
            ∧ ¬ (0xD800 ≤ (b0 - 0xE0) * 4096 + (b1 - 0x80) * 64 + (b2 - 0x80)
                ∧ (b0 - 0xE0) * 4096 + (b1 - 0x80) * 64 + (b2 - 0x80) ≤ 0xDFFF) then
          some (Char.ofNat ((b0 - 0xE0) * 4096 + (b1 - 0x80) * 64 + (b2 - 0x80)), rest2)
        else none
      | _ => none
    else if 0xF0 ≤ b0 ∧ b0 < 0xF8 then
      match rest with
      | UriToken.octet b1 :: UriToken.octet b2 :: UriToken.octet b3 :: rest3 =>
        if isContinuation b1 ∧ isContinuation b2 ∧ isContinuation b3
            ∧ 0x10000 ≤ (b0 - 0xF0) * 262144 + (b1 - 0x80) * 4096 + (b2 - 0x80) * 64 + (b3 - 0x80)
            ∧ (b0 - 0xF0) * 262144 + (b1 - 0x80) * 4096 + (b2 - 0x80) * 64 + (b3 - 0x80)
                ≤ 0x10FFFF then
          some (Char.ofNat ((b0 - 0xF0) * 262144 + (b1 - 0x80) * 4096 + (b2 - 0x80) * 64
            + (b3 - 0x80)), rest3)
        else none
      | _ => none
    else none

/-- Second pass of `decodeURIComponent`, code point after code point; each round
uses up at least one unit, so as many rounds as there are units are enough. -/
def decodeTokensAux : Nat → List UriToken → Option (List Char)
  | _, [] => some []
  | 0, _ :: _ => none
  | rounds + 1, t :: ts =>
    match decodeOne (t :: ts) with
    | some (c, rest) =>
      match decodeTokensAux rounds rest with
      | some cs => some (c :: cs)
      | none => none
    | none => none

/-- Second pass of `decodeURIComponent`. -/
def decodeTokens (ts : List UriToken) : Option (List Char) := decodeTokensAux ts.length ts

/-- The built-in `decodeURIComponent`; `none` stands for the URIError it throws. -/
def decodeURIComponent (s : String) : Option String :=
  match percentTokens s.data with
  | some ts =>
    match decodeTokens ts with
    | some cs => some (String.mk cs)
    | none => none
  | none => none

/-- Every `%` of the text is followed by two hexadecimal digits. -/
def percentWellFormed : List Char → Bool
  | [] => true
  | c :: rest =>
    (if c = '%' then
      match rest with
      | h :: l :: _ => (hexValue h).isSome && (hexValue l).isSome
      | _ => false
     else true) && percentWellFormed rest

/-- The JSON body of the token endpoint: `{access_token, token_type, expires_in}`. -/
structure TokenJson where
  token_type : String
  access_token : String
  expires_in : Int
  deriving DecidableEq, Repr

/-- A date-fns duration object; a field that is not written is `none`. -/
structure Duration where
  years : Option Int := none
  months : Option Int := none
  weeks : Option Int := none
  days : Option Int := none
  hours : Option Int := none
  minutes : Option Int := none
  seconds : Option Int := none
  deriving DecidableEq, Repr

/-- The nested `plannedTasks` object of the configuration. -/
structure PlannedTasks where
  enable : Bool
  duration : Option Duration
  deriving DecidableEq, Repr

/-- The configuration object of one account; `none` is a property that is
`undefined`. -/
structure Config where
  id : String
  tenantId : String
  clientId : String
  clientSecret : String
  scope : String
  user : String
  listName : Option String
  itemLimit : Nat
  orderBy : Option String
  plannedTasks : Option PlannedTasks
  refreshSeconds : Int
  deriving DecidableEq, Repr

/-- The fields of a `MicrosoftToDoClient` object. -/
structure MicrosoftToDoClient where
  config : Config
  accessTokenJson : Option TokenJson
  tokenExpiryTime : Option Int
  listIds : Option String
  toDoListUrl : Option String
  deriving DecidableEq, Repr

/-- A response of `fetch`: the `ok` flag, the status text and the parsed body. -/
structure Response (β : Type) where
  ok : Bool
  statusText : String
  body : β
  deriving DecidableEq, Repr

/-- One element of the lists collection. -/
structure ListEntry where
  id : String
  displayName : String
  deriving DecidableEq, Repr

/-- The JSON body of the lists endpoint: `{value: [...]}`. -/
structure ListsBody where
  value : List ListEntry
  deriving DecidableEq, Repr

/-- The `dueDateTime` structure of a task. -/
structure DueDateTime where
  dateTime : String
  timeZone : String
  deriving DecidableEq, Repr

/-- One element of the tasks collection; `dueDateTime` and `recurrence` are
`none` when the upstream item has no such field. -/
structure TaskItem where
  id : String
  title : String
  dueDateTime : Option DueDateTime
  recurrence : Option String
  deriving DecidableEq, Repr

/-- The JSON body of the tasks endpoint; `value` is `none` when it is `null` or
`undefined`. -/
structure TasksBody where
  value : Option (List TaskItem)
  deriving DecidableEq, Repr

/-- The object `getTodos` returns for one task; `δ` is the date type of date-fns. -/
structure TaskRecord (δ : Type) where
  id : String
  title : String
  dueDateTime : Option DueDateTime
  recurrence : Option String
  listId : String
  parsedDate : Option δ
  deriving DecidableEq, Repr

/-- The three `fetch` call sites of the client, with what each sends. -/
inductive Request where
  | postToken (url : String) (form : List (String × String))
  | getLists (url : String) (authorization : String)
  | getTasks (url : String) (authorization : String)
  deriving DecidableEq, Repr

/-- The faults the client raises. -/
inductive ClientError where
  | getAccessTokenFailed (statusText : String)
  | listNotFound (filter : String)
  | fetchListFailed (statusText : String)
  | getTodosFailed (statusText : String)
  | typeError (reading : String)
  deriving DecidableEq, Repr

deriving instance DecidableEq for Except

/-- The date-fns functions the client imports and uses. -/
structure DateFns (δ : Type) where
  add : Int → Duration → δ
  formatISO9075 : δ → String
  parseISO : String → δ

/-- What the outside world supplies to one call of `getTodos`: the readings of
`Date.now()` at its three call sites and the response to each `fetch`. -/
structure Env where
  nowAtTokenCheck : Int
  nowAtTokenStore : Int
  nowAtUrlBuild : Int
  tokenResponse : Response TokenJson
  listResponse : Response ListsBody
  tasksResponse : Response TasksBody
  deriving DecidableEq, Repr

/-- Truthiness of a string-valued property: set and not the empty string. -/
def truthy : Option String → Bool
  | some s => s != ""
  | none => false

/-- The comparison `now >= expiry`; false when the expiry is `undefined`. -/
def dateGe (now : Int) : Option Int → Bool
  | some e => decide (e ≤ now)
  | none => false

/-- The formatted bearer credential of a token record. -/
def bearer (t : TokenJson) : String := t.token_type ++ " " ++ t.access_token

namespace MicrosoftToDoClient

/-- The constructor of `MicrosoftToDoClient`. -/
def new (config : Config) : MicrosoftToDoClient :=
  { config := config, accessTokenJson := none, tokenExpiryTime := none,
    listIds := none, toDoListUrl := none }

/-- The request `#getAccessToken` sends to the token endpoint. -/
def tokenRequest (config : Config) : Request :=
  Request.postToken ("https://login.microsoftonline.com/" ++ config.tenantId ++ "/oauth2/v2.0/token")
    [("grant_type", "client_credentials"), ("client_id", config.clientId),
     ("client_secret", config.clientSecret),
     ("scope", "https://graph.microsoft.com/" ++ config.scope)]

/-- The token exchange of `#getAccessToken` (lines 56-79): the reading of
`Date.now()` taken after the response dates the new expiry. -/
def acquireToken (env : Env) (self : MicrosoftToDoClient) :
    Except ClientError String × MicrosoftToDoClient × List Request :=
  if env.tokenResponse.ok then
    (Except.ok (bearer env.tokenResponse.body),
     { self with accessTokenJson := some env.tokenResponse.body,
                 tokenExpiryTime :=
                   some (env.nowAtTokenStore + env.tokenResponse.body.expires_in * 1000) },
     [tokenRequest self.config])
  else
    (Except.error (ClientError.getAccessTokenFailed env.tokenResponse.statusText), self,
     [tokenRequest self.config])

/-- The method `#getAccessToken`: result, client afterwards, requests sent. The
test is `!this.accessTokenJson || Date.now() >= this.tokenExpiryTime`. -/
def getAccessToken (env : Env) (self : MicrosoftToDoClient) :
    Except ClientError String × MicrosoftToDoClient × List Request :=
  match self.accessTokenJson with
  | none => acquireToken env self
  | some cached =>
    if dateGe env.nowAtTokenCheck self.tokenExpiryTime then acquireToken env self
    else (Except.ok (bearer cached), self, [])

/-- The filter clause of the list lookup before encoding (lines 87-90). -/
def listFilterClause (listName : Option String) : String :=
  match listName with
  | some name => if name != "" then "displayName eq '" ++ name ++ "'" else ""
  | none => ""

/-- The encoded filter clause of the list lookup (line 91). -/
def listFilterEncoded (listName : Option String) : String :=
  replaceAll (encodeURIComponent (listFilterClause listName)) apostrophe "%27"

/-- The `$filter` parameter of the list lookup (lines 93-96). -/
def listFilter (listName : Option String) : String :=
  if listFilterEncoded listName != "" then "&$filter=" ++ listFilterEncoded listName else ""

/-- The URL of the list lookup (line 100). -/
def listUrl (user : String) (listName : Option String) : String :=
  "https://graph.microsoft.com/v1.0/users/" ++ user ++ "/todo/lists?$top=200" ++ listFilter listName

/-- The method `#fetchList`: result, client afterwards, requests sent. -/
def fetchList (env : Env) (self : MicrosoftToDoClient) (accessToken : String) (user : String)
    (listName : Option String) : Except ClientError String × MicrosoftToDoClient × List Request :=
  if truthy self.listIds then
    (Except.ok (self.listIds.getD ""), self, [])
  else
    if env.listResponse.ok then
      match env.listResponse.body.value with
      | first :: _ =>
        (Except.ok first.id, { self with listIds := some first.id },
         [Request.getLists (listUrl user listName) accessToken])
      | [] =>
        (Except.error (ClientError.listNotFound (listFilter listName)), self,
         [Request.getLists (listUrl user listName) accessToken])
    else
      (Except.error (ClientError.fetchListFailed env.listResponse.statusText), self,
       [Request.getLists (listUrl user listName) accessToken])

/-- The ordering part of the tasks query (lines 126-131). -/
def orderByClause (orderBy : Option String) : String :=
  (if orderBy = some "subject" then "&$orderby=createdDateTime" else "") ++
  (if orderBy = some "createdDate" then "&$orderby=createdDateTime" else "") ++
  (if orderBy = some "importance" then "&$orderby=importance desc" else "") ++
  (if orderBy = some "dueDate" then "&$orderby=duedatetime/datetime" else "")

/-- The duration `#getTodoUrl` uses: the configured one, else `{weeks: 2}` (lines 138-140). -/
def effectiveDuration (p : PlannedTasks) : Duration :=
  match p.duration with
  | some d => d
  | none => { weeks := some 2 }

/-- The tasks filter clause before encoding (lines 133-145). -/
def todoFilterClause {δ : Type} (lib : DateFns δ) (now : Int) (p : PlannedTasks) : String :=
  if p.enable then
    "status ne 'completed'" ++ (" and duedatetime/datetime lt '"
      ++ lib.formatISO9075 (lib.add now (effectiveDuration p))
      ++ "' and duedatetime/datetime ne null")
  else "status ne 'completed'"

/-- The encoded tasks filter clause (line 147). -/
def todoFilterEncoded {δ : Type} (lib : DateFns δ) (now : Int) (p : PlannedTasks) : String :=
  replaceAll (encodeURIComponent (todoFilterClause lib now p)) apostrophe "%27"

/-- The tasks URL (line 149). -/
def buildTodoUrl {δ : Type} (lib : DateFns δ) (now : Int) (config : Config) (p : PlannedTasks)
    (listId : String) : String :=
  "https://graph.microsoft.com/v1.0/users/" ++ (config.user ++ ("/todo/lists/" ++ (listId
    ++ ("/tasks?$top=" ++ (toString config.itemLimit ++ ("&$filter="
    ++ (todoFilterEncoded lib now p ++ orderByClause config.orderBy)))))))

/-- The configuration after `#getTodoUrl` has written the default duration into it. -/
def withDefaultDuration (config : Config) (p : PlannedTasks) : Config :=
  if p.enable then
    { config with plannedTasks := some { p with duration := some (effectiveDuration p) } }
  else config

/-- The method `#getTodoUrl`: result and client afterwards. Reading `enable` of a
missing `plannedTasks` object raises a TypeError. -/
def getTodoUrl {δ : Type} (lib : DateFns δ) (env : Env) (self : MicrosoftToDoClient)
    (listId : String) : Except ClientError String × MicrosoftToDoClient :=
  if truthy self.toDoListUrl then
    (Except.ok (self.toDoListUrl.getD ""), self)
  else
    match self.config.plannedTasks with
    | none => (Except.error (ClientError.typeError "plannedTasks.enable"), self)
    | some p =>
      (Except.ok (buildTodoUrl lib env.nowAtUrlBuild self.config p listId),
       { self with config := withDefaultDuration self.config p,
                   toDoListUrl := some (buildTodoUrl lib env.nowAtUrlBuild self.config p listId) })

/-- The record built for one upstream task (lines 33-45). -/
def toTaskRecord {δ : Type} (lib : DateFns δ) (listId : String) (element : TaskItem) :
    TaskRecord δ :=
  { id := element.id, title := element.title, dueDateTime := element.dueDateTime,
    recurrence := element.recurrence, listId := listId,
    parsedDate := match element.dueDateTime with
      | some d => some (lib.parseISO d.dateTime)
      | none => none }

/-- The tasks built from a successful tasks response (lines 30-48). -/
def mapTasks {δ : Type} (lib : DateFns δ) (listId : String) (body : TasksBody) :
    List (TaskRecord δ) :=
  match body.value with
  | some (first :: more) => (first :: more).map (toTaskRecord lib listId)
  | _ => []

/-- The method `getTodos`: result, client afterwards, requests sent in order. -/
def getTodos {δ : Type} (lib : DateFns δ) (env : Env) (self : MicrosoftToDoClient) :
    Except ClientError (List (TaskRecord δ)) × MicrosoftToDoClient × List Request :=
  let token := getAccessToken env self
  match token.1 with
  | Except.error e => (Except.error e, token.2.1, token.2.2)
  | Except.ok accessToken =>
    let list := fetchList env token.2.1 accessToken token.2.1.config.user
      token.2.1.config.listName
    match list.1 with
    | Except.error e => (Except.error e, list.2.1, token.2.2 ++ list.2.2)
    | Except.ok listIds =>
      let target := getTodoUrl lib env list.2.1 listIds
      match target.1 with
      | Except.error e => (Except.error e, target.2, token.2.2 ++ list.2.2)
      | Except.ok url =>
        if env.tasksResponse.ok then
          (Except.ok (mapTasks lib listIds env.tasksResponse.body), target.2,
           token.2.2 ++ list.2.2 ++ [Request.getTasks url accessToken])
        else
          (Except.error (ClientError.getTodosFailed env.tasksResponse.statusText), target.2,
           token.2.2 ++ list.2.2 ++ [Request.getTasks url accessToken])

/-- Sequential calls of `getTodos` on one client, one environment per call:
the client afterwards and all requests sent, in order. -/
def runFetches {δ : Type} (lib : DateFns δ) : List Env → MicrosoftToDoClient →
    MicrosoftToDoClient × List Request
  | [], self => (self, [])
  | env :: envs, self =>
    ((runFetches lib envs (getTodos lib env self).2.1).1,
     (getTodos lib env self).2.2 ++ (runFetches lib envs (getTodos lib env self).2.1).2)

end MicrosoftToDoClient

/-- Whether a request goes to the token endpoint. -/
def Request.isToken : Request → Bool
  | Request.postToken _ _ => true
  | _ => false

/-- Whether a request is a list lookup. -/
def Request.isListLookup : Request → Bool
  | Request.getLists _ _ => true
  | _ => false

/-! ## Data model of `node_helper.js` -/

/-- A timer object as `setInterval` of Node.js returns it; two timers are the same
when their numbers are. An object is always truthy. -/
structure Timeout where
  timerId : Nat
  deriving DecidableEq, Repr

/-- The payload of a socket notification: the object itself read as an account
configuration (`id`, `refreshSeconds`, ...), and the properties `listId`, `taskId`
and `config` a COMPLETE_TASK payload carries. -/
structure Payload where
  self : Config
  listId : Option String
  taskId : Option String
  config : Option Config
  deriving DecidableEq, Repr

/-- A value handed to `clearInterval`: a string or a timer object. -/
inductive TimerArg where
  | str (s : String)
  | timer (t : Timeout)
  deriving DecidableEq, Repr

/-- What the helper does to the outside, in order. -/
inductive Effect where
  | fetchData (config : Config)
  | setInterval (config : Config) (delayMs : Int) (handle : Timeout)
  | clearInterval (arg : TimerArg)
  | logNotImplemented (id : String)
  deriving DecidableEq, Repr

/-- The faults the helper raises. -/
inductive HelperError where
  | typeError (reading : String)
  | referenceError (name : String)
  deriving DecidableEq, Repr

/-- The module state of `node_helper.js`: the own properties of the objects
`clients` and `intervals` (both created as `{}`), and the number the runtime
gives the next timer. -/
structure Helper where
  clients : List (String × MicrosoftToDoClient)
  intervals : List (String × Timeout)
  nextTimer : Nat
  deriving DecidableEq, Repr

/-- The property names an object created as `{}` inherits from
`Object.prototype`; each holds a function or an object, so it is truthy. -/
def objectPrototypeKeys : List String :=
  ["constructor", "hasOwnProperty", "isPrototypeOf", "propertyIsEnumerable",
   "toLocaleString", "toString", "valueOf", "__defineGetter__", "__defineSetter__",
   "__lookupGetter__", "__lookupSetter__", "__proto__"]

/-- Truthiness of `obj[key]` for an object created as `{}` whose own
properties all hold objects: an own property, or an inherited one. -/
def hasTruthy {α : Type} (own : List (String × α)) (key : String) : Bool :=
  (own.lookup key).isSome || decide (key ∈ objectPrototypeKeys)

/-- The assignment `obj[key] = value` on own properties. -/
def setOwn {α : Type} (own : List (String × α)) (key : String) (value : α) :
    List (String × α) :=
  if (own.lookup key).isSome then
    own.map fun kv => if kv.1 = key then (key, value) else kv
  else own ++ [(key, value)]

namespace Helper

/-- The state when the module is loaded. -/
def init : Helper := { clients := [], intervals := [], nextTimer := 1 }

/-- The function `getClient`: the registry afterwards. -/
def getClient (h : Helper) (config : Config) : Helper :=
  if hasTruthy h.clients config.id then h
  else { h with clients := setOwn h.clients config.id (MicrosoftToDoClient.new config) }

/-- The function `fetchData`, up to the asynchronous call of `getTodos`, which is
recorded as an effect. -/
def fetchData (h : Helper) (config : Config) : Helper × List Effect :=
  (getClient h config, [Effect.fetchData config])

/-- The function `completeTask`: it only logs that completing a task is not
implemented; the message reads `config.id`. -/
def completeTask (_listId _taskId : Option String) (config : Option Config) :
    Except HelperError (List Effect) :=
  match config with
  | some c => Except.ok [Effect.logNotImplemented c.id]
  | none => Except.error (HelperError.typeError "config.id")

/-- The function `socketNotificationReceived`. In the last branch the message
reads `config.id`, and no `config` is bound in that scope. -/
def socketNotificationReceived (h : Helper) (notification : String) (payload : Payload) :
    Except HelperError (Helper × List Effect) :=
  if notification = "FETCH_DATA" then
    if !hasTruthy h.intervals payload.self.id then
      let fetched := fetchData h payload.self
      let handle : Timeout := { timerId := h.nextTimer }
      Except.ok
        ({ fetched.1 with
            intervals := setOwn fetched.1.intervals payload.self.id handle,
            nextTimer := h.nextTimer + 1 },
         fetched.2 ++ [Effect.setInterval payload.self (payload.self.refreshSeconds * 1000) handle])
    else Except.ok (h, [])
  else if notification = "COMPLETE_TASK" then
    match completeTask payload.listId payload.taskId payload.config with
    | Except.ok effects => Except.ok (h, effects)
    | Except.error e => Except.error e
  else Except.error (HelperError.referenceError "config")

/-- The function `stop`: `Object.keys(intervals).forEach(clearInterval)` calls
`clearInterval` with each own property name of `intervals` as first argument (names
are listed here in the order they were added). -/
def stop (h : Helper) : List Effect :=
  h.intervals.map fun kv => Effect.clearInterval (TimerArg.str kv.1)

/-- A start-polling request for each payload in turn, from a given state. -/
def startAll : List Payload → Helper → Helper
  | [], h => h
  | p :: ps, h =>
    match socketNotificationReceived h "FETCH_DATA" p with
    | Except.ok (h2, _) => startAll ps h2
    | Except.error _ => startAll ps h

end Helper

/-! ## Measures on traces -/

/-- The number of list lookups among the requests sent. -/
def lookupCount (trace : List Request) : Nat := trace.countP Request.isListLookup

/-- What `encodeURIComponent` followed by `replaceAll("'", "%27")` writes for one code point. -/
def quoteEncodeChar (c : Char) : List Char :=
  if c = apostrophe then ['%', '2', '7'] else encodeChar c

/-- The units `decodeURIComponent` reads back from what `quoteEncodeChar` wrote. -/
def quoteTokens (c : Char) : List UriToken :=
  if c = apostrophe then [UriToken.octet 39]
  else if uriUnescaped c then [UriToken.lit c]
  else (utf8Bytes c).map UriToken.octet

/-! ## Test data -/

/-- Test data: a date library on strings. -/
def sampleLib : DateFns String :=
  { add := fun now _ => toString now, formatISO9075 := fun d => d, parseISO := fun s => s }

/-- Test data: an account configuration. -/
def sampleConfig : Config :=
  { id := "acc1", tenantId := "t", clientId := "c", clientSecret := "s", scope := ".default",
    user := "u", listName := some "O'Brien's List", itemLimit := 50, orderBy := some "importance",
    plannedTasks := some { enable := false, duration := none }, refreshSeconds := 60 }

/-- Test data: a token response with a lifetime of one hour. -/
def sampleToken : Response TokenJson :=
  { ok := true, statusText := "OK",
    body := { token_type := "Bearer", access_token := "abc", expires_in := 3600 } }

/-- Test data: an environment at instant 0 whose list lookup finds no list. -/
def envNoList : Env :=
  { nowAtTokenCheck := 0, nowAtTokenStore := 0, nowAtUrlBuild := 0,
    tokenResponse := sampleToken,
    listResponse := { ok := true, statusText := "OK", body := { value := [] } },
    tasksResponse := { ok := true, statusText := "OK", body := { value := none } } }

/-- Test data: a lists response holding the given entries. -/
def listsOf (entries : List ListEntry) : Response ListsBody :=
  { ok := true, statusText := "OK", body := { value := entries } }

/-- Test data: an environment whose lookup returns one list with the given id. -/
def envWithList (id : String) : Env :=
  { envNoList with listResponse := listsOf [{ id := id, displayName := "Tasks" }] }

/-- Test data: the sample configuration after its ordering and planned-tasks
settings were changed. -/
def sampleConfigChanged : Config :=
  { id := "acc1", tenantId := "t", clientId := "c", clientSecret := "s", scope := ".default",
    user := "u", listName := some "Other", itemLimit := 50, orderBy := some "dueDate",
    plannedTasks := some { enable := true, duration := none }, refreshSeconds := 60 }

/-- Test data: an environment one day later. -/
def envNextDay : Env :=
  { nowAtTokenCheck := 86400000, nowAtTokenStore := 86400000, nowAtUrlBuild := 86400000,
    tokenResponse := sampleToken,
    listResponse := listsOf [{ id := "L2", displayName := "Other" }],
    tasksResponse := { ok := true, statusText := "OK", body := { value := none } } }

/-- Test data: the client after its first build of the tasks URL. -/
def clientAfterBuild : MicrosoftToDoClient :=
  (MicrosoftToDoClient.getTodoUrl sampleLib envNoList (MicrosoftToDoClient.new sampleConfig) "L1").2

/-- Test data: that client with its configuration changed afterwards. -/
def clientReconfigured : MicrosoftToDoClient :=
  { config := sampleConfigChanged, accessTokenJson := clientAfterBuild.accessTokenJson,
    tokenExpiryTime := clientAfterBuild.tokenExpiryTime, listIds := clientAfterBuild.listIds,
    toDoListUrl := clientAfterBuild.toDoListUrl }

/-- Test data: a start-polling payload for the given account id. -/
def payloadFor (id : String) : Payload :=
  { self := { sampleConfig with id := id }, listId := none, taskId := none, config := none }

/-- Test data: the sample configuration without a `plannedTasks` object. -/
def sampleConfigNoPlanned : Config :=
  { id := "acc1", tenantId := "t", clientId := "c", clientSecret := "s", scope := ".default",
    user := "u", listName := none, itemLimit := 50, orderBy := some "importance",
    plannedTasks := none, refreshSeconds := 60 }

/-- Test data: a client whose planned-tasks look-ahead is enabled without a duration. -/
def clientPlanned : MicrosoftToDoClient := MicrosoftToDoClient.new sampleConfigChanged

/-! ## Theorems -/

set_option maxRecDepth 100000

/-! ## Percent-encoding -/

theorem hexDigit_facts :
    ∀ n, n < 16 → hexValue (hexDigit n) = some n ∧ hexDigit n ≠ '%' ∧ hexDigit n ≠ apostrophe := by
  decide

theorem char_valid_toNat (c : Char) :
    c.toNat < 0xD800 ∨ (0xDFFF < c.toNat ∧ c.toNat < 0x110000) := by
  have h := c.valid
  simpa [UInt32.isValidChar, Nat.isValidChar, Char.toNat] using h

theorem utf8Bytes_lt (c : Char) : ∀ b ∈ utf8Bytes c, b < 256 := by
  have hv := char_valid_toNat c
  intro b hb
  unfold utf8Bytes at hb
  simp only at hb
  split at hb
  · simp at hb; omega
  · split at hb
    · simp at hb; omega
    · split at hb
      · simp at hb; omega
      · simp at hb; omega

theorem uriUnescaped_ne_percent (c : Char) (h : uriUnescaped c = true) : c ≠ '%' := by
  intro hc
  subst hc
  revert h
  decide

theorem uriUnescaped_apostrophe : uriUnescaped apostrophe = true := by decide

theorem replaceAll_percentByte (b : Nat) (hb : b < 256) :
    (percentByte b).flatMap (fun c => if c = apostrophe then "%27".data else [c])
      = percentByte b := by
  have h1 := (hexDigit_facts (b / 16) (by omega)).2.2
  have h2 := (hexDigit_facts (b % 16) (by omega)).2.2
  have h3 : ('%' : Char) ≠ apostrophe := by decide
  simp [percentByte, h1, h2, h3]

theorem replaceAll_bytes (bs : List Nat) (hb : ∀ b ∈ bs, b < 256) :
    (bs.flatMap percentByte).flatMap (fun c => if c = apostrophe then "%27".data else [c])
      = bs.flatMap percentByte := by
  induction bs with
  | nil => rfl
  | cons b rest ih =>
    simp only [List.flatMap_cons, List.flatMap_append]
    rw [replaceAll_percentByte b (hb b (List.mem_cons_self _ _)),
      ih (fun x hx => hb x (List.mem_cons_of_mem _ hx))]

theorem replaceAll_encodeChar (c : Char) :
    (encodeChar c).flatMap (fun c => if c = apostrophe then "%27".data else [c])
      = quoteEncodeChar c := by
  unfold quoteEncodeChar
  by_cases hq : c = apostrophe
  · subst hq
    simp [encodeChar, uriUnescaped_apostrophe]
  · simp only [hq, if_false]
    unfold encodeChar
    split
    · simp [hq]
    · exact replaceAll_bytes _ (utf8Bytes_lt c)

theorem replaceAll_encode_data (s : String) :
    (replaceAll (encodeURIComponent s) apostrophe "%27").data
      = s.data.flatMap quoteEncodeChar := by
  unfold replaceAll encodeURIComponent
  simp only
  induction s.data with
  | nil => rfl
  | cons c rest ih =>
    simp only [List.flatMap_cons, List.flatMap_append]
    rw [ih, replaceAll_encodeChar]

theorem quoteEncodeChar_no_quote (c : Char) : apostrophe ∉ quoteEncodeChar c := by
  unfold quoteEncodeChar
  by_cases hq : c = apostrophe
  · simp only [hq, if_true]
    decide
  · simp only [hq, if_false]
    unfold encodeChar
    split
    · simp only [List.mem_singleton]
      exact fun h => hq h.symm
    · intro hmem
      simp only [List.mem_flatMap] at hmem
      obtain ⟨b, hb, hin⟩ := hmem
      have hlt := utf8Bytes_lt c b hb
      have h1 := (hexDigit_facts (b / 16) (by omega)).2.2
      have h2 := (hexDigit_facts (b % 16) (by omega)).2.2
      have h3 : apostrophe ≠ ('%' : Char) := by decide
      simp only [percentByte, List.mem_cons, List.mem_singleton, List.not_mem_nil, or_false] at hin
      rcases hin with h | h | h
      · exact h3 h
      · exact h1 h.symm
      · exact h2 h.symm

theorem percentWellFormed_percentByte (b : Nat) (hb : b < 256) (rest : List Char) :
    percentWellFormed (percentByte b ++ rest) = percentWellFormed rest := by
  obtain ⟨a1, a2, -⟩ := hexDigit_facts (b / 16) (by omega)
  obtain ⟨b1, b2, -⟩ := hexDigit_facts (b % 16) (by omega)
  simp [percentByte, percentWellFormed, a1, a2, b1, b2]

theorem percentWellFormed_bytes (bs : List Nat) (hb : ∀ b ∈ bs, b < 256) (rest : List Char) :
    percentWellFormed (bs.flatMap percentByte ++ rest) = percentWellFormed rest := by
  induction bs with
  | nil => rfl
  | cons b more ih =>
    simp only [List.flatMap_cons, List.append_assoc]
    rw [percentWellFormed_percentByte b (hb b (List.mem_cons_self _ _)),
      ih (fun x hx => hb x (List.mem_cons_of_mem _ hx))]

theorem percentWellFormed_quoteEncodeChar (c : Char) (rest : List Char) :
    percentWellFormed (quoteEncodeChar c ++ rest) = percentWellFormed rest := by
  unfold quoteEncodeChar
  by_cases hq : c = apostrophe
  · simp only [hq, if_true]
    have h := percentWellFormed_percentByte 39 (by omega) rest
    exact h
  · simp only [hq, if_false]
    unfold encodeChar
    split
    · rename_i hu
      simp [percentWellFormed, uriUnescaped_ne_percent c hu]
    · exact percentWellFormed_bytes _ (utf8Bytes_lt c) rest

theorem percentWellFormed_quoteEncode (cs : List Char) :
    percentWellFormed (cs.flatMap quoteEncodeChar) = true := by
  induction cs with
  | nil => rfl
  | cons c rest ih =>
    simp only [List.flatMap_cons]
    rw [percentWellFormed_quoteEncodeChar, ih]

theorem percentTokens_percentByte (b : Nat) (hb : b < 256) (rest : List Char) :
    percentTokens (percentByte b ++ rest)
      = match percentTokens rest with
        | some ts => some (UriToken.octet b :: ts)
        | none => none := by
  obtain ⟨a1, -, -⟩ := hexDigit_facts (b / 16) (by omega)
  obtain ⟨b1, -, -⟩ := hexDigit_facts (b % 16) (by omega)
  have hb16 : 16 * (b / 16) + b % 16 = b := by omega
  cases h : percentTokens rest <;>
    simp [percentByte, percentTokens, a1, b1, hb16, h]

theorem percentTokens_bytes (bs : List Nat) (hb : ∀ b ∈ bs, b < 256) (rest : List Char) :
    percentTokens (bs.flatMap percentByte ++ rest)
      = match percentTokens rest with
        | some ts => some (bs.map UriToken.octet ++ ts)
        | none => none := by
  induction bs with
  | nil => cases h : percentTokens rest <;> simp [h]
  | cons b more ih =>
    simp only [List.flatMap_cons, List.append_assoc]
    rw [percentTokens_percentByte b (hb b (List.mem_cons_self _ _)),
      ih (fun x hx => hb x (List.mem_cons_of_mem _ hx))]
    cases h : percentTokens rest <;> simp

theorem percentTokens_literal (c : Char) (rest : List Char) (h : c ≠ '%') :
    percentTokens (c :: rest)
      = match percentTokens rest with
        | some ts => some (UriToken.lit c :: ts)
        | none => none := by
  rw [percentTokens.eq_def]
  simp only [h, if_false]

theorem decodeOne_quoteTokens (c : Char) (ts : List UriToken) :
    decodeOne (quoteTokens c ++ ts) = some (c, ts) := by
  have hv := char_valid_toNat c
  have hc : Char.ofNat c.toNat = c := Char.ofNat_toNat c
  unfold quoteTokens
  by_cases hq : c = apostrophe
  · subst hq
    simp [decodeOne, apostrophe]
  · simp only [hq, if_false]
    by_cases hu : uriUnescaped c = true
    · simp [hu, decodeOne]
    · have hu2 : uriUnescaped c = false := by simpa using hu
      simp only [hu2, Bool.false_eq_true, if_false]
      unfold utf8Bytes
      simp only
      by_cases h1 : c.toNat < 0x80
      · simp [h1, decodeOne, hc]
      · by_cases h2 : c.toNat < 0x800
        · have e : (0xC0 + c.toNat / 64 - 0xC0) * 64 + (0x80 + c.toNat % 64 - 0x80) = c.toNat := by
            omega
          have hb0 : ¬ (0xC0 + c.toNat / 64 < 0x80) := by omega
          have hb0r : 0xC0 ≤ 0xC0 + c.toNat / 64 ∧ 0xC0 + c.toNat / 64 < 0xE0 := by omega
          have hk : isContinuation (0x80 + c.toNat % 64) = true ∧ 0x80 ≤ c.toNat := by
            simp only [isContinuation, Bool.and_eq_true, decide_eq_true_eq]
            omega
          simp only [h1, h2, if_true, if_false, List.map_cons, List.map_nil, List.cons_append,
            List.nil_append, decodeOne, hb0, hb0r, e, hk, and_self, hc]
        · by_cases h3 : c.toNat < 0x10000
          · have e : (0xE0 + c.toNat / 4096 - 0xE0) * 4096 + (0x80 + c.toNat / 64 % 64 - 0x80) * 64
                + (0x80 + c.toNat % 64 - 0x80) = c.toNat := by omega
            have hb0 : ¬ (0xE0 + c.toNat / 4096 < 0x80) := by omega
            have hb0q : ¬ (0xC0 ≤ 0xE0 + c.toNat / 4096 ∧ 0xE0 + c.toNat / 4096 < 0xE0) := by omega
            have hb0r : 0xE0 ≤ 0xE0 + c.toNat / 4096 ∧ 0xE0 + c.toNat / 4096 < 0xF0 := by omega
            have hk : isContinuation (0x80 + c.toNat / 64 % 64) = true
                ∧ isContinuation (0x80 + c.toNat % 64) = true
                ∧ 0x800 ≤ c.toNat ∧ ¬ (0xD800 ≤ c.toNat ∧ c.toNat ≤ 0xDFFF) := by
              simp only [isContinuation, Bool.and_eq_true, decide_eq_true_eq]
              omega
            simp only [h1, h2, h3, if_true, if_false, List.map_cons, List.map_nil,
              List.cons_append, List.nil_append, decodeOne, hb0, hb0q, hb0r, e, hk, and_self,
              hc, not_false_eq_true]
          · have e : (0xF0 + c.toNat / 262144 - 0xF0) * 262144
                + (0x80 + c.toNat / 4096 % 64 - 0x80) * 4096
                + (0x80 + c.toNat / 64 % 64 - 0x80) * 64
                + (0x80 + c.toNat % 64 - 0x80) = c.toNat := by omega
            have hb0 : ¬ (0xF0 + c.toNat / 262144 < 0x80) := by omega
            have hb0q : ¬ (0xC0 ≤ 0xF0 + c.toNat / 262144 ∧ 0xF0 + c.toNat / 262144 < 0xE0) := by
              omega
            have hb0q2 : ¬ (0xE0 ≤ 0xF0 + c.toNat / 262144 ∧ 0xF0 + c.toNat / 262144 < 0xF0) := by
              omega
            have hb0r : 0xF0 ≤ 0xF0 + c.toNat / 262144 ∧ 0xF0 + c.toNat / 262144 < 0xF8 := by
              omega
            have hk : isContinuation (0x80 + c.toNat / 4096 % 64) = true
                ∧ isContinuation (0x80 + c.toNat / 64 % 64) = true
                ∧ isContinuation (0x80 + c.toNat % 64) = true
                ∧ 0x10000 ≤ c.toNat ∧ c.toNat ≤ 0x10FFFF := by
              simp only [isContinuation, Bool.and_eq_true, decide_eq_true_eq]
              omega
            simp only [h1, h2, h3, if_true, if_false, List.map_cons, List.map_nil,
              List.cons_append, List.nil_append, decodeOne, hb0, hb0q, hb0q2, hb0r, e, hk,
              and_self, hc]

theorem quoteTokens_length (c : Char) : 1 ≤ (quoteTokens c).length := by
  unfold quoteTokens utf8Bytes
  simp only
  split
  · simp
  · split
    · simp
    · split
      · simp
      · split
        · simp
        · split <;> simp

theorem decodeTokensAux_quoteTokens (cs : List Char) :
    ∀ rounds, (cs.flatMap quoteTokens).length ≤ rounds →
      decodeTokensAux rounds (cs.flatMap quoteTokens) = some cs := by
  induction cs with
  | nil =>
    intro rounds _
    cases rounds <;> rfl
  | cons c rest ih =>
    intro rounds hr
    have hlen := quoteTokens_length c
    simp only [List.flatMap_cons, List.length_append] at hr ⊢
    cases rounds with
    | zero => omega
    | succ n =>
      cases hq : quoteTokens c ++ rest.flatMap quoteTokens with
      | nil =>
        have := congrArg List.length hq
        simp only [List.length_append, List.length_nil] at this
        omega
      | cons t ts =>
        rw [decodeTokensAux, ← hq, decodeOne_quoteTokens]
        simp only [ih n (by omega)]

theorem decodeTokens_quoteTokens_all (cs : List Char) :
    decodeTokens (cs.flatMap quoteTokens) = some cs :=
  decodeTokensAux_quoteTokens cs _ (Nat.le_refl _)

theorem percentTokens_quoteEncodeChar (c : Char) (rest : List Char) :
    percentTokens (quoteEncodeChar c ++ rest)
      = match percentTokens rest with
        | some ts => some (quoteTokens c ++ ts)
        | none => none := by
  unfold quoteEncodeChar quoteTokens
  by_cases hq : c = apostrophe
  · simp only [hq, if_true]
    exact percentTokens_percentByte 39 (by omega) rest
  · simp only [hq, if_false]
    unfold encodeChar
    by_cases hu : uriUnescaped c = true
    · have hp := uriUnescaped_ne_percent c hu
      simp only [hu, if_true, List.cons_append, List.nil_append]
      rw [percentTokens_literal c rest hp]
    · have hu2 : uriUnescaped c = false := by simpa using hu
      simp only [hu2, Bool.false_eq_true, if_false]
      exact percentTokens_bytes _ (utf8Bytes_lt c) rest

theorem percentTokens_quoteEncode (cs : List Char) :
    percentTokens (cs.flatMap quoteEncodeChar) = some (cs.flatMap quoteTokens) := by
  induction cs with
  | nil => rfl
  | cons c rest ih =>
    simp only [List.flatMap_cons]
    rw [percentTokens_quoteEncodeChar, ih]

/-- Encoding a filter clause as lines 91 and 147 do: the result has no single
quote, is well-formed percent-encoding, and decodes to the clause. -/
theorem encoded_filter_spec (s : String) :
    (replaceAll (encodeURIComponent s) apostrophe "%27").data = s.data.flatMap quoteEncodeChar
    ∧ apostrophe ∉ (replaceAll (encodeURIComponent s) apostrophe "%27").data
    ∧ percentWellFormed (replaceAll (encodeURIComponent s) apostrophe "%27").data = true
    ∧ decodeURIComponent (replaceAll (encodeURIComponent s) apostrophe "%27") = some s := by
  have hd := replaceAll_encode_data s
  refine ⟨hd, ?_, ?_, ?_⟩
  · rw [hd]
    intro hmem
    simp only [List.mem_flatMap] at hmem
    obtain ⟨c, -, hc⟩ := hmem
    exact quoteEncodeChar_no_quote c hc
  · rw [hd]
    exact percentWellFormed_quoteEncode _
  · unfold decodeURIComponent
    rw [hd, percentTokens_quoteEncode]
    simp only [decodeTokens_quoteTokens_all]

namespace MicrosoftToDoClient

theorem getAccessToken_fields (env : Env) (self : MicrosoftToDoClient) :
    (getAccessToken env self).2.1.listIds = self.listIds
    ∧ (getAccessToken env self).2.1.toDoListUrl = self.toDoListUrl
    ∧ (getAccessToken env self).2.1.config = self.config
    ∧ lookupCount (getAccessToken env self).2.2 = 0 := by
  unfold getAccessToken acquireToken lookupCount
  cases hj : self.accessTokenJson <;> cases hd : dateGe env.nowAtTokenCheck self.tokenExpiryTime <;>
    cases ho : env.tokenResponse.ok <;> simp [tokenRequest, Request.isListLookup]

theorem fetchList_cached (env : Env) (self : MicrosoftToDoClient) (a u : String)
    (n : Option String) (h : truthy self.listIds = true) :
    fetchList env self a u n = (Except.ok (self.listIds.getD ""), self, []) := by
  simp [fetchList, h]

theorem fetchList_fields (env : Env) (self : MicrosoftToDoClient) (a u : String)
    (n : Option String) :
    (fetchList env self a u n).2.1.toDoListUrl = self.toDoListUrl
    ∧ (fetchList env self a u n).2.1.config = self.config
    ∧ (fetchList env self a u n).2.1.accessTokenJson = self.accessTokenJson
    ∧ (fetchList env self a u n).2.1.tokenExpiryTime = self.tokenExpiryTime := by
  unfold fetchList
  split
  · simp
  · split
    · split <;> simp
    · simp

theorem getTodoUrl_fields {δ : Type} (lib : DateFns δ) (env : Env) (self : MicrosoftToDoClient)
    (listId : String) :
    (getTodoUrl lib env self listId).2.listIds = self.listIds
    ∧ (getTodoUrl lib env self listId).2.accessTokenJson = self.accessTokenJson
    ∧ (getTodoUrl lib env self listId).2.tokenExpiryTime = self.tokenExpiryTime := by
  unfold getTodoUrl
  split
  · simp
  · split <;> simp

theorem except_cases {ε α : Type} (x : Except ε α) :
    (∃ e, x = Except.error e) ∨ (∃ a, x = Except.ok a) := by
  cases x with
  | error e => exact Or.inl ⟨e, rfl⟩
  | ok a => exact Or.inr ⟨a, rfl⟩

/-- The four ways a call of `getTodos` ends, with the results of its steps. -/
theorem getTodos_cases {δ : Type} (lib : DateFns δ) (env : Env) (self : MicrosoftToDoClient) :
    (∃ e s1 t1, getAccessToken env self = (Except.error e, s1, t1)
        ∧ getTodos lib env self = (Except.error e, s1, t1))
    ∨ (∃ tok s1 t1 e s2 t2, getAccessToken env self = (Except.ok tok, s1, t1)
        ∧ fetchList env s1 tok s1.config.user s1.config.listName = (Except.error e, s2, t2)
        ∧ getTodos lib env self = (Except.error e, s2, t1 ++ t2))
    ∨ (∃ tok s1 t1 lid s2 t2 e s3, getAccessToken env self = (Except.ok tok, s1, t1)
        ∧ fetchList env s1 tok s1.config.user s1.config.listName = (Except.ok lid, s2, t2)
        ∧ getTodoUrl lib env s2 lid = (Except.error e, s3)
        ∧ getTodos lib env self = (Except.error e, s3, t1 ++ t2))
    ∨ (∃ tok s1 t1 lid s2 t2 url s3, getAccessToken env self = (Except.ok tok, s1, t1)
        ∧ fetchList env s1 tok s1.config.user s1.config.listName = (Except.ok lid, s2, t2)
        ∧ getTodoUrl lib env s2 lid = (Except.ok url, s3)
        ∧ getTodos lib env self =
            if env.tasksResponse.ok then
              (Except.ok (mapTasks lib lid env.tasksResponse.body), s3,
               t1 ++ t2 ++ [Request.getTasks url tok])
            else
              (Except.error (ClientError.getTodosFailed env.tasksResponse.statusText), s3,
               t1 ++ t2 ++ [Request.getTasks url tok])) := by
  unfold getTodos
  simp only
  rcases h1 : getAccessToken env self with ⟨r1, s1, t1⟩
  cases r1 with
  | error e => exact Or.inl ⟨e, s1, t1, rfl, rfl⟩
  | ok tok =>
    right
    simp only
    rcases h2 : fetchList env s1 tok s1.config.user s1.config.listName with ⟨r2, s2, t2⟩
    cases r2 with
    | error e => exact Or.inl ⟨tok, s1, t1, e, s2, t2, rfl, h2, rfl⟩
    | ok lid =>
      right
      simp only
      rcases h3 : getTodoUrl lib env s2 lid with ⟨r3, s3⟩
      cases r3 with
      | error e => exact Or.inl ⟨tok, s1, t1, lid, s2, t2, e, s3, rfl, h2, h3, rfl⟩
      | ok url => exact Or.inr ⟨tok, s1, t1, lid, s2, t2, url, s3, rfl, h2, h3, rfl⟩

theorem getTodos_cached {δ : Type} (lib : DateFns δ) (env : Env) (self : MicrosoftToDoClient)
    (h : truthy self.listIds = true) :
    (getTodos lib env self).2.1.listIds = self.listIds
      ∧ lookupCount (getTodos lib env self).2.2 = 0 := by
  rcases getTodos_cases lib env self with ⟨e, s1, t1, h1, hg⟩ | ⟨tok, s1, t1, e, s2, t2, h1, h2, hg⟩
    | ⟨tok, s1, t1, lid, s2, t2, e, s3, h1, h2, h3, hg⟩
    | ⟨tok, s1, t1, lid, s2, t2, url, s3, h1, h2, h3, hg⟩
  all_goals
    obtain ⟨h1a, -, -, h1d⟩ := getAccessToken_fields env self
    rw [h1] at h1a h1d
    simp only at h1a h1d
  · rw [hg]
    exact ⟨h1a, h1d⟩
  all_goals
    have hc := fetchList_cached env s1 tok s1.config.user s1.config.listName (by rw [h1a]; exact h)
    rw [h2] at hc
    simp only [Prod.mk.injEq] at hc
    obtain ⟨hc1, hc2, hc3⟩ := hc
    subst hc2 hc3
  · simp at hc1
  all_goals
    have h3a := (getTodoUrl_fields lib env s2 lid).1
    rw [h3] at h3a
    simp only at h3a
  · rw [hg]
    simp only [lookupCount, List.countP_append, h3a] at h1d ⊢
    exact ⟨h1a, by simp [h1d]⟩
  · rw [hg]
    split <;>
    · simp only [lookupCount, List.countP_append, h3a, List.countP_cons, List.countP_nil,
        Request.isListLookup] at h1d ⊢
      exact ⟨h1a, by simp [h1d]⟩

theorem runFetches_cached {δ : Type} (lib : DateFns δ) (envs : List Env) :
    ∀ self : MicrosoftToDoClient, truthy self.listIds = true →
      (runFetches lib envs self).1.listIds = self.listIds
        ∧ lookupCount (runFetches lib envs self).2 = 0 := by
  induction envs with
  | nil => intro self _; simp [runFetches, lookupCount]
  | cons env envs ih =>
    intro self hs
    obtain ⟨hk, hz⟩ := getTodos_cached lib env self hs
    obtain ⟨hk2, hz2⟩ := ih (getTodos lib env self).2.1 (by rw [hk]; exact hs)
    simp only [runFetches, lookupCount, List.countP_append] at hz hz2 ⊢
    exact ⟨by rw [hk2, hk], by omega⟩

theorem getAccessToken_kind (env : Env) (self : MicrosoftToDoClient) :
    ∀ r ∈ (getAccessToken env self).2.2, r.isToken = true := by
  unfold getAccessToken acquireToken
  cases hj : self.accessTokenJson <;> cases hd : dateGe env.nowAtTokenCheck self.tokenExpiryTime <;>
    cases ho : env.tokenResponse.ok <;> simp [tokenRequest, Request.isToken]

theorem fetchList_kind (env : Env) (self : MicrosoftToDoClient) (a u : String)
    (n : Option String) :
    ∀ r ∈ (fetchList env self a u n).2.2, r.isListLookup = true := by
  unfold fetchList
  split
  · simp
  · split
    · split <;> simp [Request.isListLookup]
    · simp [Request.isListLookup]

theorem truthy_iff (o : Option String) (s : String) (h : o = some s) (hne : s ≠ "") :
    truthy o = true := by
  subst h
  simp [truthy, hne]

theorem fetchList_ok (env : Env) (self : MicrosoftToDoClient) (a u : String)
    (n : Option String) (id : String) (h : (fetchList env self a u n).1 = Except.ok id) :
    (fetchList env self a u n).2.1.listIds = some id
      ∧ ((fetchList env self a u n).2.2 ≠ [] →
          ∃ first more, env.listResponse.body.value = first :: more ∧ id = first.id) := by
  unfold fetchList at h ⊢
  by_cases hc : truthy self.listIds = true
  · simp only [hc, if_true] at h ⊢
    cases hl : self.listIds with
    | none => rw [hl] at hc; simp [truthy] at hc
    | some s =>
      rw [hl] at h
      simp at h
      simp [h]
  · simp only [hc] at h ⊢
    cases ho : env.listResponse.ok
    · simp [ho] at h
    · cases hv : env.listResponse.body.value with
      | nil => simp [ho, hv] at h
      | cons first more =>
        simp [ho, hv] at h
        simp [h]

/-- Counterexample to C5: a lookup that succeeds with the empty identifier is
followed by a later call that queries the lists endpoint again. -/
theorem C5_counterexample :
    (fetchList (envWithList "") (MicrosoftToDoClient.new sampleConfig) "Bearer abc" "u" none).1
        = Except.ok ""
    ∧ ¬ (fetchList (envWithList "B")
          (fetchList (envWithList "") (MicrosoftToDoClient.new sampleConfig) "Bearer abc" "u" none).2.1
          "Bearer abc" "u" none
        = (Except.ok "",
           (fetchList (envWithList "") (MicrosoftToDoClient.new sampleConfig) "Bearer abc" "u"
             none).2.1, [])) := by
  decide

/-- C5 as amended: once `#fetchList` has succeeded with a non-empty identifier (the id
of the first element when a lookup was sent), the client holds it, every later call
returns it without a request whatever the list name, user and credential, and
`#getAccessToken`, `#getTodoUrl` and `getTodos` leave it in place. -/
theorem C5_list_id_cached (env : Env) (self : MicrosoftToDoClient) (tok user : String)
    (name : Option String) (id : String)
    (hok : (fetchList env self tok user name).1 = Except.ok id) (hne : id ≠ "") :
    ((fetchList env self tok user name).2.2 ≠ [] →
        ∃ first more, env.listResponse.body.value = first :: more ∧ id = first.id)
    ∧ (fetchList env self tok user name).2.1.listIds = some id
    ∧ ∀ later : MicrosoftToDoClient, later.listIds = some id →
        (∀ (env2 : Env) (tok2 user2 : String) (name2 : Option String),
            fetchList env2 later tok2 user2 name2 = (Except.ok id, later, []))
        ∧ (∀ env2 : Env, (getAccessToken env2 later).2.1.listIds = some id)
        ∧ (∀ (δ : Type) (lib : DateFns δ) (env2 : Env) (listId : String),
            (getTodoUrl lib env2 later listId).2.listIds = some id)
        ∧ (∀ (δ : Type) (lib : DateFns δ) (envs : List Env),
            (runFetches lib envs later).1.listIds = some id
              ∧ lookupCount (runFetches lib envs later).2 = 0) := by
  obtain ⟨h1, h2⟩ := fetchList_ok env self tok user name id hok
  refine ⟨h2, h1, ?_⟩
  intro later hl
  have ht : truthy later.listIds = true := truthy_iff _ id hl hne
  refine ⟨?_, ?_, ?_, ?_⟩
  · intro env2 tok2 user2 name2
    rw [fetchList_cached env2 later tok2 user2 name2 ht, hl]
    rfl
  · intro env2
    rw [(getAccessToken_fields env2 later).1, hl]
  · intro δ lib env2 listId
    rw [(getTodoUrl_fields lib env2 later listId).1, hl]
  · intro δ lib envs
    obtain ⟨ha, hb⟩ := runFetches_cached lib envs later ht
    exact ⟨by rw [ha, hl], hb⟩

/-- Witness for C5: after list `L1` was resolved, a call with another user, name and
credential returns `L1` and sends nothing. -/
theorem C5_list_id_cached_witness :
    "L1" ≠ "" ∧
    (fetchList (envWithList "B")
        (fetchList (envWithList "L1") (MicrosoftToDoClient.new sampleConfig) "Bearer abc" "u"
          none).2.1 "Bearer xyz" "v" (some "Other")
      = (Except.ok "L1",
         (fetchList (envWithList "L1") (MicrosoftToDoClient.new sampleConfig) "Bearer abc" "u"
           none).2.1, [])) :=
  ⟨by decide,
   ((C5_list_id_cached (envWithList "L1") (MicrosoftToDoClient.new sampleConfig) "Bearer abc" "u"
      none "L1" (by decide) (by decide)).2.2 _
      (C5_list_id_cached (envWithList "L1") (MicrosoftToDoClient.new sampleConfig) "Bearer abc" "u"
        none "L1" (by decide) (by decide)).2.1).1 (envWithList "B") "Bearer xyz" "v" (some "Other")⟩

theorem append_ne_empty (a b : String) (h : a ≠ "") : a ++ b ≠ "" := by
  intro hab
  apply h
  have hl := congrArg String.length hab
  rw [String.length_append] at hl
  have h0 : a.length = 0 := by
    have : ("" : String).length = 0 := rfl
    omega
  exact String.ext (List.eq_nil_of_length_eq_zero h0)

theorem buildTodoUrl_ne_empty {δ : Type} (lib : DateFns δ) (now : Int) (config : Config)
    (p : PlannedTasks) (listId : String) : buildTodoUrl lib now config p listId ≠ "" := by
  unfold buildTodoUrl
  exact append_ne_empty _ _ (by decide)

theorem getTodoUrl_cached {δ : Type} (lib : DateFns δ) (env : Env) (self : MicrosoftToDoClient)
    (listId : String) (h : truthy self.toDoListUrl = true) :
    getTodoUrl lib env self listId = (Except.ok (self.toDoListUrl.getD ""), self) := by
  simp [getTodoUrl, h]

theorem getTodoUrl_ok {δ : Type} (lib : DateFns δ) (env : Env) (self : MicrosoftToDoClient)
    (listId url : String) (h : (getTodoUrl lib env self listId).1 = Except.ok url) :
    (getTodoUrl lib env self listId).2.toDoListUrl = some url ∧ url ≠ "" := by
  unfold getTodoUrl at h ⊢
  by_cases hc : truthy self.toDoListUrl = true
  · simp only [hc, if_true] at h ⊢
    cases hl : self.toDoListUrl with
    | none => rw [hl] at hc; simp [truthy] at hc
    | some s =>
      rw [hl] at h hc
      simp at h
      simp [truthy] at hc
      subst h
      exact ⟨rfl, hc⟩
  · simp only [hc] at h ⊢
    cases hp : self.config.plannedTasks with
    | none => simp [hp] at h
    | some p =>
      simp [hp] at h
      subst h
      exact ⟨by simp, buildTodoUrl_ne_empty _ _ _ _ _⟩

theorem getTodos_url_cached {δ : Type} (lib : DateFns δ) (env : Env) (self : MicrosoftToDoClient)
    (url : String) (hu : self.toDoListUrl = some url) (hne : url ≠ "") :
    (getTodos lib env self).2.1.toDoListUrl = some url
      ∧ ∀ r ∈ (getTodos lib env self).2.2, ∀ u a, r = Request.getTasks u a → u = url := by
  have htr : ∀ (t1 t2 : List Request) (x : Request),
      (∀ r ∈ t1, r.isToken = true) → (∀ r ∈ t2, r.isListLookup = true) →
      ∀ r ∈ t1 ++ t2 ++ [x], ∀ u a, r = Request.getTasks u a → x = Request.getTasks u a := by
    intro t1 t2 x k1 k2 r hr u a hru
    subst hru
    simp only [List.mem_append, List.mem_singleton] at hr
    rcases hr with (hr | hr) | hr
    · exact absurd (k1 _ hr) (by simp [Request.isToken])
    · exact absurd (k2 _ hr) (by simp [Request.isListLookup])
    · exact hr.symm
  have htr2 : ∀ (t1 t2 : List Request),
      (∀ r ∈ t1, r.isToken = true) → (∀ r ∈ t2, r.isListLookup = true) →
      ∀ r ∈ t1 ++ t2, ∀ u a, r = Request.getTasks u a → u = url := by
    intro t1 t2 k1 k2 r hr u a hru
    subst hru
    simp only [List.mem_append] at hr
    rcases hr with hr | hr
    · exact absurd (k1 _ hr) (by simp [Request.isToken])
    · exact absurd (k2 _ hr) (by simp [Request.isListLookup])
  rcases getTodos_cases lib env self with ⟨e, s1, t1, h1, hg⟩ | ⟨tok, s1, t1, e, s2, t2, h1, h2, hg⟩
    | ⟨tok, s1, t1, lid, s2, t2, e, s3, h1, h2, h3, hg⟩
    | ⟨tok, s1, t1, lid, s2, t2, url2, s3, h1, h2, h3, hg⟩
  all_goals
    have f1 := (getAccessToken_fields env self).2.1
    have k1 := getAccessToken_kind env self
    rw [h1] at f1 k1
    simp only at f1 k1
  · rw [hg]
    refine ⟨by rw [f1, hu], ?_⟩
    intro r hr u a hru
    subst hru
    exact absurd (k1 _ hr) (by simp [Request.isToken])
  all_goals
    have f2 := (fetchList_fields env s1 tok s1.config.user s1.config.listName).1
    have k2 := fetchList_kind env s1 tok s1.config.user s1.config.listName
    rw [h2] at f2 k2
    simp only at f2 k2
  · rw [hg]
    exact ⟨by rw [f2, f1, hu], htr2 t1 t2 k1 k2⟩
  all_goals
    have hc := getTodoUrl_cached lib env s2 lid (truthy_iff _ url (by rw [f2, f1, hu]) hne)
    rw [h3, f2, f1, hu] at hc
    simp only [Prod.mk.injEq, Option.getD_some] at hc
    obtain ⟨hc1, hc2⟩ := hc
    subst hc2
  · simp at hc1
  · simp only [Except.ok.injEq] at hc1
    subst hc1
    rw [hg]
    split
    · refine ⟨by rw [f2, f1, hu], ?_⟩
      intro r hr u a hru
      have := htr t1 t2 _ k1 k2 r hr u a hru
      simp only [Request.getTasks.injEq] at this
      exact this.1.symm
    · refine ⟨by rw [f2, f1, hu], ?_⟩
      intro r hr u a hru
      have := htr t1 t2 _ k1 k2 r hr u a hru
      simp only [Request.getTasks.injEq] at this
      exact this.1.symm

theorem runFetches_url_cached {δ : Type} (lib : DateFns δ) (url : String) (hne : url ≠ "")
    (envs : List Env) :
    ∀ self : MicrosoftToDoClient, self.toDoListUrl = some url →
      ∀ r ∈ (runFetches lib envs self).2, ∀ u a, r = Request.getTasks u a → u = url := by
  induction envs with
  | nil => intro self _ r hr; simp [runFetches] at hr
  | cons env envs ih =>
    intro self hu r hr u a hru
    obtain ⟨hk, hreq⟩ := getTodos_url_cached lib env self url hu hne
    simp only [runFetches, List.mem_append] at hr
    rcases hr with hr | hr
    · exact hreq r hr u a hru
    · exact ih _ hk r hr u a hru

/-- C10: once `#getTodoUrl` has returned a URL, the client holds it; every later call
returns that same URL and changes nothing, for any list id, clock and configuration,
the other methods leave it in place, and every tasks request of later fetches goes
to it. -/
theorem C10_query_built_once {δ : Type} (lib : DateFns δ) (env : Env)
    (self : MicrosoftToDoClient) (listId url : String)
    (hfirst : (getTodoUrl lib env self listId).1 = Except.ok url) :
    (getTodoUrl lib env self listId).2.toDoListUrl = some url
    ∧ ∀ later : MicrosoftToDoClient, later.toDoListUrl = some url →
        (∀ (γ : Type) (lib2 : DateFns γ) (env2 : Env) (listId2 : String),
            getTodoUrl lib2 env2 later listId2 = (Except.ok url, later))
        ∧ (∀ env2 : Env, (getAccessToken env2 later).2.1.toDoListUrl = some url)
        ∧ (∀ (env2 : Env) (tok user : String) (name : Option String),
            (fetchList env2 later tok user name).2.1.toDoListUrl = some url)
        ∧ (∀ (γ : Type) (lib2 : DateFns γ) (envs : List Env),
            ∀ r ∈ (runFetches lib2 envs later).2, ∀ u a, r = Request.getTasks u a → u = url) := by
  obtain ⟨h1, hne⟩ := getTodoUrl_ok lib env self listId url hfirst
  refine ⟨h1, ?_⟩
  intro later hl
  have ht : truthy later.toDoListUrl = true := truthy_iff _ url hl hne
  refine ⟨?_, ?_, ?_, ?_⟩
  · intro γ lib2 env2 listId2
    rw [getTodoUrl_cached lib2 env2 later listId2 ht, hl]
    rfl
  · intro env2
    rw [(getAccessToken_fields env2 later).2.1, hl]
  · intro env2 tok user name
    rw [(fetchList_fields env2 later tok user name).1, hl]
  · intro γ lib2 envs
    exact runFetches_url_cached lib2 url hne envs later hl

/-- Witness for C10: a day later, with the ordering and planned-tasks settings changed
and another list id, the URL of the first build is returned. -/
theorem C10_query_built_once_witness :
    (getTodoUrl sampleLib envNoList (MicrosoftToDoClient.new sampleConfig) "L1").1
        = Except.ok "https://graph.microsoft.com/v1.0/users/u/todo/lists/L1/tasks?$top=50&$filter=status%20ne%20%27completed%27&$orderby=importance desc"
    ∧ getTodoUrl sampleLib envNextDay clientReconfigured "L2"
      = (Except.ok "https://graph.microsoft.com/v1.0/users/u/todo/lists/L1/tasks?$top=50&$filter=status%20ne%20%27completed%27&$orderby=importance desc",
         clientReconfigured) :=
  ⟨by decide,
   ((C10_query_built_once sampleLib envNoList (MicrosoftToDoClient.new sampleConfig) "L1" _
      (by decide)).2 clientReconfigured (by decide)).1 String sampleLib envNextDay "L2"⟩

theorem string_data_append3 (a b c : String) : (a ++ b ++ c).data = a.data ++ b.data ++ c.data := by
  simp [String.data_append]

theorem listFilterClause_some (name : String) (hname : name ≠ "") :
    listFilterClause (some name) = "displayName eq '" ++ name ++ "'" := by
  simp [listFilterClause, hname]

/-- C7: for a non-empty display name the encoded list filter is
`displayName%20eq%20%27`, the name with every quote written `%27`, then `%27`; it
holds no single quote, every `%` in it is followed by two hexadecimal digits, and
`decodeURIComponent` gives back the clause. The same holds for the tasks filter. -/
theorem C7_filter_encoding (name : String) (hname : name ≠ "") :
    listFilterEncoded (some name)
        = "displayName%20eq%20%27" ++ String.mk (name.data.flatMap quoteEncodeChar) ++ "%27"
    ∧ listFilter (some name) = "&$filter=" ++ listFilterEncoded (some name)
    ∧ apostrophe ∉ (listFilterEncoded (some name)).data
    ∧ percentWellFormed (listFilterEncoded (some name)).data = true
    ∧ decodeURIComponent (listFilterEncoded (some name))
        = some ("displayName eq '" ++ name ++ "'")
    ∧ ∀ (δ : Type) (lib : DateFns δ) (now : Int) (p : PlannedTasks),
        (todoFilterEncoded lib now p).data
            = (todoFilterClause lib now p).data.flatMap quoteEncodeChar
        ∧ apostrophe ∉ (todoFilterEncoded lib now p).data
        ∧ percentWellFormed (todoFilterEncoded lib now p).data = true
        ∧ decodeURIComponent (todoFilterEncoded lib now p) = some (todoFilterClause lib now p) := by
  obtain ⟨e1, e2, e3, e4⟩ := encoded_filter_spec (listFilterClause (some name))
  have hdata : (listFilterEncoded (some name)).data
      = ("displayName%20eq%20%27" ++ String.mk (name.data.flatMap quoteEncodeChar) ++ "%27").data := by
    unfold listFilterEncoded
    rw [e1, listFilterClause_some name hname, string_data_append3, string_data_append3,
      List.flatMap_append, List.flatMap_append]
    rfl
  have heq := String.ext hdata
  refine ⟨heq, ?_, e2, e3, ?_, ?_⟩
  · have hne : listFilterEncoded (some name) ≠ "" := by
      rw [heq, String.append_assoc]
      exact append_ne_empty _ _ (by decide)
    simp [listFilter, hne]
  · rw [← listFilterClause_some name hname]
    exact e4
  · intro δ lib now p
    exact encoded_filter_spec (todoFilterClause lib now p)

/-- Witness for C7: the display name `O'Brien's List`. -/
theorem C7_filter_encoding_witness :
    "O'Brien's List" ≠ ""
    ∧ listFilterEncoded (some "O'Brien's List")
        = "displayName%20eq%20%27O%27Brien%27s%20List%27"
    ∧ decodeURIComponent "displayName%20eq%20%27O%27Brien%27s%20List%27"
        = some "displayName eq 'O'Brien's List'" :=
  ⟨by decide, (C7_filter_encoding "O'Brien's List" (by decide)).1.trans (by decide),
   (congrArg decodeURIComponent
      ((C7_filter_encoding "O'Brien's List" (by decide)).1.trans (by decide))).symm.trans
    (C7_filter_encoding "O'Brien's List" (by decide)).2.2.2.2.1⟩

/-- Counterexample to C8: with no `plannedTasks` object in the configuration
`#getTodoUrl` raises a TypeError and builds no filter. -/
theorem C8_counterexample :
    (getTodoUrl sampleLib envNoList (MicrosoftToDoClient.new sampleConfigNoPlanned) "L1").1
        = Except.error (ClientError.typeError "plannedTasks.enable")
    ∧ ¬ ∃ url, (getTodoUrl sampleLib envNoList
          (MicrosoftToDoClient.new sampleConfigNoPlanned) "L1").1 = Except.ok url := by
  have h : (getTodoUrl sampleLib envNoList (MicrosoftToDoClient.new sampleConfigNoPlanned) "L1").1
      = Except.error (ClientError.typeError "plannedTasks.enable") := by decide
  refine ⟨h, ?_⟩
  rintro ⟨url, hu⟩
  rw [h] at hu
  cases hu

theorem getTodoUrl_built {δ : Type} (lib : DateFns δ) (env : Env) (self : MicrosoftToDoClient)
    (listId : String) (p : PlannedTasks) (hcache : truthy self.toDoListUrl = false)
    (hp : self.config.plannedTasks = some p) :
    (getTodoUrl lib env self listId).1
      = Except.ok ("https://graph.microsoft.com/v1.0/users/" ++ self.config.user
          ++ "/todo/lists/" ++ listId ++ "/tasks?$top=" ++ toString self.config.itemLimit
          ++ "&$filter=" ++ todoFilterEncoded lib env.nowAtUrlBuild p
          ++ orderByClause self.config.orderBy) := by
  simp [getTodoUrl, hcache, hp, buildTodoUrl, String.append_assoc]

/-- C8 as amended: for a configuration that has a `plannedTasks` object, the tasks
filter `#getTodoUrl` encodes into the URL begins with `status ne 'completed'`; it is
that clause alone when `enable` is false, and with `enable` true it is followed by the
due-date bounds, the cut-off being `formatISO9075(add(now, duration))` with
`{weeks: 2}` for a missing duration. -/
theorem C8_tasks_filter {δ : Type} (lib : DateFns δ) (env : Env) (self : MicrosoftToDoClient)
    (listId : String) (p : PlannedTasks) (hcache : truthy self.toDoListUrl = false)
    (hp : self.config.plannedTasks = some p) :
    ∃ filter : String,
      (getTodoUrl lib env self listId).1
        = Except.ok ("https://graph.microsoft.com/v1.0/users/" ++ self.config.user
            ++ "/todo/lists/" ++ listId ++ "/tasks?$top=" ++ toString self.config.itemLimit
            ++ "&$filter=" ++ replaceAll (encodeURIComponent filter) apostrophe "%27"
            ++ orderByClause self.config.orderBy)
      ∧ decodeURIComponent (replaceAll (encodeURIComponent filter) apostrophe "%27") = some filter
      ∧ (∃ tail, filter = "status ne 'completed'" ++ tail)
      ∧ (p.enable = false → filter = "status ne 'completed'")
      ∧ (p.enable = true →
          filter = "status ne 'completed'" ++ " and duedatetime/datetime lt '"
            ++ lib.formatISO9075 (lib.add env.nowAtUrlBuild (p.duration.getD { weeks := some 2 }))
            ++ "' and duedatetime/datetime ne null") := by
  refine ⟨todoFilterClause lib env.nowAtUrlBuild p, getTodoUrl_built lib env self listId p hcache hp,
    (encoded_filter_spec _).2.2.2, ?_, ?_, ?_⟩
  · unfold todoFilterClause
    split
    · exact ⟨_, rfl⟩
    · exact ⟨"", by simp⟩
  · intro h
    simp [todoFilterClause, h]
  · intro h
    have hd : effectiveDuration p = p.duration.getD { weeks := some 2 } := by
      unfold effectiveDuration
      cases p.duration <;> rfl
    rw [todoFilterClause, if_pos h, hd]
    simp only [String.append_assoc]

/-- Witness for C8: look-ahead enabled without a duration. -/
theorem C8_tasks_filter_witness :
    truthy clientPlanned.toDoListUrl = false
    ∧ clientPlanned.config.plannedTasks = some { enable := true, duration := none }
    ∧ (getTodoUrl sampleLib envNoList clientPlanned "L1").1
        = Except.ok "https://graph.microsoft.com/v1.0/users/u/todo/lists/L1/tasks?$top=50&$filter=status%20ne%20%27completed%27%20and%20duedatetime%2Fdatetime%20lt%20%270%27%20and%20duedatetime%2Fdatetime%20ne%20null&$orderby=duedatetime/datetime" := by
  refine ⟨by decide, by decide, ?_⟩
  obtain ⟨filter, h, -, -, -, h5⟩ := C8_tasks_filter sampleLib envNoList clientPlanned "L1"
    { enable := true, duration := none } (by decide) (by decide)
  rw [h, h5 rfl]
  decide

end MicrosoftToDoClient

namespace Helper

theorem lookup_append_new {α : Type} (own : List (String × α)) (key : String) (value : α)
    (h : own.lookup key = none) :
    (own ++ [(key, value)]).lookup key = some value
      ∧ ∀ other, other ≠ key → (own ++ [(key, value)]).lookup other = own.lookup other := by
  induction own with
  | nil =>
    refine ⟨by simp [List.lookup], ?_⟩
    intro other hne
    have hb : (other == key) = false := by simpa using hne
    simp [List.lookup, hb]
  | cons kv rest ih =>
    obtain ⟨k, v⟩ := kv
    by_cases hk : key = k
    · subst hk
      simp [List.lookup] at h
    · have hk2 : (key == k) = false := by simpa using hk
      simp only [List.lookup, hk2] at h
      obtain ⟨ih1, ih2⟩ := ih h
      refine ⟨by simp only [List.cons_append, List.lookup, hk2]; exact ih1, ?_⟩
      intro other hne
      simp only [List.cons_append, List.lookup]
      cases hok : other == k
      · exact ih2 other hne
      · rfl

/-- From a state in which `intervals[id]` is falsy, two start-polling requests for
the same id arm one timer and start one fetch; the second changes nothing. -/
theorem startPolling_idempotent (h : Helper) (p q : Payload) (hid : q.self.id = p.self.id)
    (hfree : hasTruthy h.intervals p.self.id = false) :
    ∃ h1 : Helper,
      socketNotificationReceived h "FETCH_DATA" p
        = Except.ok (h1, [Effect.fetchData p.self,
            Effect.setInterval p.self (p.self.refreshSeconds * 1000) { timerId := h.nextTimer }])
      ∧ h1.intervals = h.intervals ++ [(p.self.id, { timerId := h.nextTimer })]
      ∧ h1.intervals.lookup p.self.id = some { timerId := h.nextTimer }
      ∧ (∀ other, other ≠ p.self.id → h1.intervals.lookup other = h.intervals.lookup other)
      ∧ socketNotificationReceived h1 "FETCH_DATA" q = Except.ok (h1, []) := by
  have hnone : h.intervals.lookup p.self.id = none := by
    simp only [hasTruthy, Bool.or_eq_false_iff] at hfree
    cases hl : h.intervals.lookup p.self.id with
    | none => rfl
    | some v => rw [hl] at hfree; simp at hfree
  obtain ⟨l1, l2⟩ := lookup_append_new h.intervals p.self.id { timerId := h.nextTimer } hnone
  have hint : (getClient h p.self).intervals = h.intervals := by
    unfold getClient
    split <;> rfl
  refine ⟨{ getClient h p.self with
      intervals := setOwn (getClient h p.self).intervals p.self.id { timerId := h.nextTimer },
      nextTimer := h.nextTimer + 1 }, ?_, ?_, ?_, ?_, ?_⟩
  · simp only [socketNotificationReceived, hfree, fetchData]
    rfl
  · simp [hint, setOwn, hnone]
  · simp only [hint, setOwn, hnone]
    exact l1
  · intro other hne
    simp only [hint, setOwn, hnone]
    exact l2 other hne
  · simp only [socketNotificationReceived, hid, hasTruthy, hint, setOwn, hnone]
    simp [l1]

/-- For every registry, `stop` hands no timer object to `clearInterval`. -/
theorem stop_never_passes_handle (h : Helper) (t : Timeout) :
    Effect.clearInterval (TimerArg.timer t) ∉ stop h := by
  simp [stop]

/-- A start-polling request whose id names an inherited property does nothing. -/
theorem inherited_key_is_noop (h : Helper) (p : Payload)
    (hkey : p.self.id ∈ objectPrototypeKeys) :
    socketNotificationReceived h "FETCH_DATA" p = Except.ok (h, []) := by
  simp [socketNotificationReceived, hasTruthy, hkey]

/-- C2: whatever start-polling requests came before, `stop` hands no stored timer to
`clearInterval`; after one request for `acc1` the registry holds timer 1 under the
key `acc1` and `stop` calls `clearInterval` with the string `acc1` alone. -/
theorem C2_stop_passes_keys :
    (∀ (payloads : List Payload) (t : Timeout),
        Effect.clearInterval (TimerArg.timer t) ∉ stop (startAll payloads init))
    ∧ (startAll [payloadFor "acc1"] init).intervals = [("acc1", { timerId := 1 })]
    ∧ stop (startAll [payloadFor "acc1"] init) = [Effect.clearInterval (TimerArg.str "acc1")] :=
  ⟨fun payloads t => stop_never_passes_handle (startAll payloads init) t, by decide, by decide⟩

/-- C3: on a fresh helper a start-polling request for the account id `constructor`
starts no fetch and arms no timer, and two of them leave the registry empty; the
same holds in every state for every id that names an inherited property, while the
request for `acc1` fetches once and arms timer 1. -/
theorem C3_inherited_key_never_polls :
    socketNotificationReceived init "FETCH_DATA" (payloadFor "constructor")
        = Except.ok (init, [])
    ∧ (startAll [payloadFor "constructor", payloadFor "constructor"] init).intervals = []
    ∧ (∀ (h : Helper) (p : Payload), p.self.id ∈ objectPrototypeKeys →
        socketNotificationReceived h "FETCH_DATA" p = Except.ok (h, []))
    ∧ socketNotificationReceived init "FETCH_DATA" (payloadFor "acc1")
        = Except.ok
            ({ clients := [("acc1", MicrosoftToDoClient.new (payloadFor "acc1").self)],
               intervals := [("acc1", { timerId := 1 })], nextTimer := 2 },
             [Effect.fetchData (payloadFor "acc1").self,
              Effect.setInterval (payloadFor "acc1").self 60000 { timerId := 1 }]) :=
  ⟨by decide, by decide, inherited_key_is_noop, by decide⟩

end Helper
